import Mathlib

/-!
Shallow embedding of `src/app.py` (a private Telegram unit-check bot):
the classifier `detect_type`, the enricher `fake_lookup`, the formatter
`format_card`, the access gate `is_allowed`, the sqlite-backed check store,
and the dispatch handlers `cmd_start`, `cmd_help`, `cmd_last`, `on_text`.

Strings are modelled at the character-sequence level (`String` / `List Char`);
regular expressions are translated into explicit character scanners with the
same backtracking behaviour and with Python's Unicode semantics — `\d`, the
`str.strip()` whitespace set and `re.IGNORECASE` literal folding are embedded
as tables generated from CPython 3.11; the sqlite table `checks` is modelled as a list
of rows with AUTOINCREMENT id assignment, and `ORDER BY id DESC LIMIT n`
as a stable sort by descending id followed by `take n`.
-/

namespace UnitBot

/-- The characters Python's `str.strip()` removes: the Unicode whitespace set
of CPython's `str.isspace` (generated from CPython 3.11). -/
def wsChars : List Char :=
  ['\u0009', '\u000a', '\u000b', '\u000c', '\u000d', '\u001c', '\u001d',
   '\u001e', '\u001f', '\u0020', '\u0085', '\u00a0', '\u1680', '\u2000',
   '\u2001', '\u2002', '\u2003', '\u2004', '\u2005', '\u2006', '\u2007',
   '\u2008', '\u2009', '\u200a', '\u2028', '\u2029', '\u202f', '\u205f',
   '\u3000']

/-- Python whitespace test, per `str.isspace`. -/
def pyIsSpace (c : Char) : Bool := wsChars.contains c

/-- Python `text.strip()`: drop leading and trailing Unicode whitespace. -/
def pyStrip (s : String) : String :=
  ⟨((s.data.dropWhile pyIsSpace).reverse.dropWhile pyIsSpace).reverse⟩

/-- The codepoint ranges Python's `\d` matches (Unicode decimal digits,
category Nd; generated from CPython 3.11's `re`). -/
def ndRanges : List (Nat × Nat) :=
  [(48, 57), (1632, 1641), (1776, 1785), (1984, 1993), (2406, 2415),
   (2534, 2543), (2662, 2671), (2790, 2799), (2918, 2927), (3046, 3055),
   (3174, 3183), (3302, 3311), (3430, 3439), (3558, 3567), (3664, 3673),
   (3792, 3801), (3872, 3881), (4160, 4169), (4240, 4249), (6112, 6121),
   (6160, 6169), (6470, 6479), (6608, 6617), (6784, 6793), (6800, 6809),
   (6992, 7001), (7088, 7097), (7232, 7241), (7248, 7257), (42528, 42537),
   (43216, 43225), (43264, 43273), (43472, 43481), (43504, 43513),
   (43600, 43609), (44016, 44025), (65296, 65305), (66720, 66729),
   (68912, 68921), (69734, 69743), (69872, 69881), (69942, 69951),
   (70096, 70105), (70384, 70393), (70736, 70745), (70864, 70873),
   (71248, 71257), (71360, 71369), (71472, 71481), (71904, 71913),
   (72016, 72025), (72784, 72793), (73040, 73049), (73120, 73129),
   (92768, 92777), (92864, 92873), (93008, 93017), (120782, 120831),
   (123200, 123209), (123632, 123641), (125264, 125273), (130032, 130041)]

/-- Python's `\d`: any Unicode decimal digit. -/
def pyIsDigit (c : Char) : Bool :=
  ndRanges.any (fun r => decide (r.1 ≤ c.toNat) && decide (c.toNat ≤ r.2))

/-- `is_allowed` from app.py: `(not ALLOWED_USER_IDS) or (user_id in ALLOWED_USER_IDS)`.
The configured allow-set is passed explicitly (it is a module-global loaded once). -/
def is_allowed (allowed : List Int) (user_id : Int) : Bool :=
  allowed.isEmpty || allowed.contains user_id

/-- How Python `re.IGNORECASE` matches one pattern literal `k` against a text
character `c`, for exactly the pattern alphabet of app.py
(`https?://`, `unit|apt|apartment|flat`).  The accepted sets are generated
from CPython 3.11: each letter accepts its two ASCII cases, and additionally
`i` accepts `İ` (U+0130) and `ı` (U+0131), and `s` accepts `ſ` (U+017F),
via the engine's Unicode case folding; `:` and `/` accept only themselves. -/
def reLitMatch (k c : Char) : Bool :=
  if k = 'i' then c = 'i' || c = 'I' || c = 'İ' || c = 'ı'
  else if k = 's' then c = 's' || c = 'S' || c = 'ſ'
  else if k = 'u' then c = 'u' || c = 'U'
  else if k = 'n' then c = 'n' || c = 'N'
  else if k = 't' then c = 't' || c = 'T'
  else if k = 'a' then c = 'a' || c = 'A'
  else if k = 'p' then c = 'p' || c = 'P'
  else if k = 'r' then c = 'r' || c = 'R'
  else if k = 'm' then c = 'm' || c = 'M'
  else if k = 'e' then c = 'e' || c = 'E'
  else if k = 'f' then c = 'f' || c = 'F'
  else if k = 'l' then c = 'l' || c = 'L'
  else if k = 'h' then c = 'h' || c = 'H'
  else c = k

/-- Match a list of pattern literals against a text prefix, pointwise under
`re.IGNORECASE`. -/
def litsMatch : List Char → List Char → Bool
  | [], [] => true
  | k :: ks, c :: cs => reLitMatch k c && litsMatch ks cs
  | _, _ => false

/-- Case-insensitive literal match of the pattern chars `kw` at the head of
`cs`: returns the remainder after the matched prefix. -/
def matchKw : List Char → List Char → Option (List Char)
  | [], cs => some cs
  | _ :: _, [] => none
  | k :: ks, c :: cs => if reLitMatch k c then matchKw ks cs else none

/-- `URL_RE = re.compile(r"^https?://", re.I)` applied via `.match`: literals
`h t t p`, an optional `s` (the engine tries it, then backtracks), then
`: / /`, each matched per `re.IGNORECASE`. -/
def urlMatch (t : String) : Bool :=
  ((matchKw ['h', 't', 't', 'p'] t.data).map (fun rest =>
    (matchKw ['s', ':', '/', '/'] rest).isSome ||
    (matchKw [':', '/', '/'] rest).isSome)).getD false

/-- `PERMIT_RE = re.compile(r"^\d{6,20}$")` applied via `.match`:
the whole string is 6 to 20 Unicode decimal digits. -/
def permitMatch (t : String) : Bool :=
  t.data.all pyIsDigit && decide (6 ≤ t.data.length) && decide (t.data.length ≤ 20)

/-- `detect_type` from app.py. -/
def detect_type (text : String) : String :=
  let t := pyStrip text
  if urlMatch t then "listing_url"
  else if permitMatch t then "permit_number"
  else "text"

/-! ### The enricher's regex

`re.search(r"(unit|apt|apartment|flat)[\-_/ ]?(\d+)", text, re.I)`:
scan positions left to right; at each position try the keyword alternation in
order, then the optional separator (greedy, with backtracking), then one or
more digits (greedy).  `m.group(2)` is the digit run. -/

/-- The alternation `(unit|apt|apartment|flat)`, in source order. -/
def kwList : List String := ["unit", "apt", "apartment", "flat"]

/-- The separator class `[\-_/ ]`. -/
def isSep (c : Char) : Bool := c = '-' || c = '_' || c = '/' || c = ' '

/-- Does the list start with a digit?  (`\d+` succeeds here iff it does.) -/
def headDigit (cs : List Char) : Bool := (cs.head?.map pyIsDigit).getD false

/-- After the keyword: `[\-_/ ]?(\d+)` with the regex engine's backtracking.
The greedy optional separator consumes one separator char when the next char
is a digit; otherwise the empty alternative must be followed by a digit.
Returns the captured (maximal) digit run. -/
def captureDigits : List Char → Option (List Char)
  | [] => none
  | c :: cs =>
    if isSep c then
      if headDigit cs then some (cs.takeWhile pyIsDigit) else none
    else if pyIsDigit c then some ((c :: cs).takeWhile pyIsDigit)
    else none

/-- Try the keyword alternation at the current position: branches in order,
falling through to the next branch when the keyword or the digit tail fails
(the engine's backtracking). -/
def tryKws : List String → List Char → Option (List Char)
  | [], _ => none
  | kw :: kws, cs => ((matchKw kw.data cs).bind captureDigits) <|> tryKws kws cs

/-- `re.search`: leftmost match, scanning positions left to right. -/
def searchUnit : List Char → Option (List Char)
  | [] => none
  | c :: cs => tryKws kwList (c :: cs) <|> searchUnit cs

/-- A `LookupResult` models the dict returned by `fake_lookup`; each field is
`Option`al because `format_card` reads the dict with `.get(key, default)`. -/
structure LookupResult where
  unit_number : Option String
  building : Option String
  project : Option String
  community : Option String
  permit_status : Option String
  input_type : Option String
  flags : Option (List String)
deriving DecidableEq, Repr

/-- `fake_lookup` from app.py.  `unit_guess or "—"` in Python falls back when
`unit_guess` is `None` or the empty string. -/
def fake_lookup (text : String) (input_type : String) : LookupResult :=
  let unit_guess : Option String := (searchUnit text.data).map (⟨·⟩)
  { unit_number := some (match unit_guess with
      | some u => if u = "" then "—" else u
      | none => "—")
    building := some "—"
    project := some "—"
    community := some "—"
    permit_status := some "unknown"
    input_type := some input_type
    flags := some ["No data source connected yet (MVP)."] }

/-- `format_card` from app.py. -/
def format_card (check_id : Nat) (result : LookupResult) : String :=
  let flags := result.flags.getD []
  let flag_text := if flags.isEmpty then "—"
    else String.intercalate "\n" (flags.map (fun f => "• " ++ f))
  "✅ Check #" ++ toString check_id ++ "\n\n" ++
  "Unit: " ++ result.unit_number.getD "—" ++ "\n" ++
  "Building: " ++ result.building.getD "—" ++ "\n" ++
  "Project: " ++ result.project.getD "—" ++ "\n" ++
  "Community: " ++ result.community.getD "—" ++ "\n" ++
  "Permit: " ++ result.permit_status.getD "unknown" ++ "\n" ++
  "Type: " ++ result.input_type.getD "—" ++ "\n\n" ++
  "Flags:\n" ++ flag_text

/-! ### The store

The sqlite table `checks(id INTEGER PRIMARY KEY AUTOINCREMENT, user_id,
payload, created_at)` is modelled as a list of rows in insertion order.
AUTOINCREMENT assigns the new row an id strictly larger than every id used
so far (max + 1, starting at 1); `cur.lastrowid` returns that id. -/

/-- One row of the `checks` table. -/
structure CheckRecord where
  id : Nat
  user_id : Int
  payload : String
  created_at : String
deriving DecidableEq, Repr

/-- The `checks` table, rows in insertion order. -/
structure Store where
  rows : List CheckRecord
deriving DecidableEq, Repr

/-- The id AUTOINCREMENT assigns to the next inserted row. -/
def Store.nextId (s : Store) : Nat := (s.rows.map (·.id)).foldr max 0 + 1

/-- `INSERT INTO checks(user_id, payload, created_at) VALUES(?,?,?)` followed by
`cur.lastrowid`: returns the updated table and the new row's id. -/
def Store.append (s : Store) (user_id : Int) (payload : String)
    (created_at : String) : Store × Nat :=
  let i := s.nextId
  (⟨s.rows ++ [⟨i, user_id, payload, created_at⟩]⟩, i)

/-- `SELECT id, payload, created_at FROM checks WHERE user_id=? ORDER BY id DESC
LIMIT n` (the source inlines `n = 5` in `cmd_last`): filter on the user, sort
by id descending, keep the first `limit` rows. -/
def Store.recent (s : Store) (user_id : Int) (limit : Nat) : List CheckRecord :=
  ((s.rows.filter (fun r => r.user_id = user_id)).insertionSort
    (fun a b => b.id ≤ a.id)).take limit

/-! ### The dispatch handlers

A Telegram `Update` reaches a handler carrying `update.effective_user`
(possibly absent) and `update.message` (possibly absent; when present its
`.text` is the message content).  Each handler returns the possibly-updated
store and the list of replies sent via `reply_text` (empty = silently
dropped).  `on_text` additionally takes the dispatcher's clock value `now`
(the `datetime.utcnow().isoformat()` string). -/

/-- `update.effective_user`. -/
structure User where
  id : Int
deriving DecidableEq, Repr

/-- The parts of a Telegram `Update` the handlers read. -/
structure Update where
  effective_user : Option User
  message : Option String
deriving DecidableEq, Repr

/-- The refusal reply sent to users outside the allow-set. -/
def REFUSAL : String := "⛔️ Private bot."

/-- `cmd_start` from app.py. -/
def cmd_start (allowed : List Int) (update : Update) (s : Store) :
    Store × List String :=
  match update.effective_user, update.message with
  | some u, some _ =>
    if !is_allowed allowed u.id then (s, [REFUSAL])
    else (s, ["👋 Private Unit Bot\n\nPlak een listing link of permit number.\nCommands: /help  /last"])
  | _, _ => (s, [])

/-- `cmd_help` from app.py. -/
def cmd_help (allowed : List Int) (update : Update) (s : Store) :
    Store × List String :=
  match update.effective_user, update.message with
  | some u, some _ =>
    if !is_allowed allowed u.id then (s, [REFUSAL])
    else (s, ["Send:\n- listing link\n- permit number\n\nCommands:\n/last (laatste 5 checks)"])
  | _, _ => (s, [])

/-- `cmd_last` from app.py; each record line is
`#<id> — <payload[:60]> (<created_at>)`. -/
def cmd_last (allowed : List Int) (update : Update) (s : Store) :
    Store × List String :=
  match update.effective_user, update.message with
  | some u, some _ =>
    if !is_allowed allowed u.id then (s, [REFUSAL])
    else
      let rows := s.recent u.id 5
      if rows.isEmpty then (s, ["Nog geen checks."])
      else (s, [String.intercalate "\n" ("🕘 Laatste checks:" :: rows.map (fun r =>
        "#" ++ toString r.id ++ " — " ++ ⟨r.payload.data.take 60⟩ ++
          " (" ++ r.created_at ++ ")"))])
  | _, _ => (s, [])

/-- `on_text` from app.py: strip, classify, enrich, timestamp, insert, reply. -/
def on_text (allowed : List Int) (now : String) (update : Update) (s : Store) :
    Store × List String :=
  match update.effective_user, update.message with
  | some u, some txt =>
    if !is_allowed allowed u.id then (s, [REFUSAL])
    else
      let payload := pyStrip txt
      let input_type := detect_type payload
      let result := fake_lookup payload input_type
      let created_at := now ++ "Z"
      let a := s.append u.id payload created_at
      (a.1, ["(debug) your_user_id=" ++ toString u.id ++ "\n\n" ++ format_card a.2 result])
  | _, _ => (s, [])

/-- Substring scan: does `p` occur as a contiguous run in `l`? -/
def substrScan (p : List Char) : List Char → Bool
  | [] => p.isEmpty
  | c :: cs => p.isPrefixOf (c :: cs) || substrScan p cs

/-- Substring test used to state "the reply contains …". -/
def strContains (s pat : String) : Bool := substrScan pat.data s.data

/-! ## Helper lemmas -/

lemma pyIsSpace_not_digit (c : Char) (h : pyIsSpace c = true) :
    pyIsDigit c = false := by
  have hm : c ∈ wsChars := by
    simp only [pyIsSpace, List.contains] at h
    exact List.mem_of_elem_eq_true h
  fin_cases hm <;> decide

lemma dropWhile_eq_self_of_none (l : List Char)
    (h : ∀ c ∈ l, pyIsSpace c = false) : l.dropWhile pyIsSpace = l := by
  cases l with
  | nil => simp
  | cons c cs =>
    rw [List.dropWhile_cons, if_neg]
    simp [h c (List.mem_cons_self c cs)]

lemma pyStrip_of_digits (t : String) (h : ∀ c ∈ t.data, pyIsDigit c = true) :
    pyStrip t = t := by
  have hsp : ∀ c ∈ t.data, pyIsSpace c = false := by
    intro c hc
    by_contra hx
    have h1 : pyIsSpace c = true := by simpa using hx
    have h2 := pyIsSpace_not_digit c h1
    rw [h c hc] at h2
    exact Bool.noConfusion h2
  have h1 : t.data.dropWhile pyIsSpace = t.data := dropWhile_eq_self_of_none _ hsp
  have h2 : t.data.reverse.dropWhile pyIsSpace = t.data.reverse :=
    dropWhile_eq_self_of_none _ (fun c hc => hsp c (List.mem_reverse.mp hc))
  cases t with
  | mk data => simp [pyStrip, h1, h2]

lemma reLitMatch_h_cases (c : Char) (h : reLitMatch 'h' c = true) :
    c = 'h' ∨ c = 'H' := by
  rw [show reLitMatch 'h' c = (c = 'h' || c = 'H') from rfl] at h
  simpa using h

lemma digit_not_h (c : Char) (h : pyIsDigit c = true) :
    reLitMatch 'h' c = false := by
  by_contra hx
  have h1 : reLitMatch 'h' c = true := by simpa using hx
  rcases reLitMatch_h_cases c h1 with rfl | rfl <;> exact absurd h (by decide)

lemma urlMatch_eq_false_of_digits (t : String) (hne : t.data ≠ [])
    (h : ∀ c ∈ t.data, pyIsDigit c = true) : urlMatch t = false := by
  cases ht : t.data with
  | nil => exact absurd ht hne
  | cons c cs =>
    have hc : pyIsDigit c = true := h c (by rw [ht]; exact List.mem_cons_self c cs)
    have hm : matchKw ['h', 't', 't', 'p'] (c :: cs) = none := by
      rw [matchKw, if_neg]
      simp [digit_not_h c hc]
    rw [urlMatch, ht, hm]
    rfl

lemma permitMatch_iff (t : String) :
    permitMatch t = true ↔
      6 ≤ t.data.length ∧ t.data.length ≤ 20 ∧ ∀ c ∈ t.data, pyIsDigit c = true := by
  simp only [permitMatch, Bool.and_eq_true, List.all_eq_true, decide_eq_true_iff]
  constructor
  · rintro ⟨⟨hall, h6⟩, h20⟩
    exact ⟨h6, h20, hall⟩
  · rintro ⟨h6, h20, hall⟩
    exact ⟨⟨hall, h6⟩, h20⟩

lemma detect_type_eq (text : String) :
    detect_type text =
      if urlMatch (pyStrip text) then "listing_url"
      else if permitMatch (pyStrip text) then "permit_number"
      else "text" := rfl

/-! ## C1 -/

/-- C1 counterexample: the program classifies the six-fullwidth-digit string
"１２３４５６" as "permit_number" — Python's `\d` matches any Unicode decimal
digit, so a trimmed all-digit string that is not ASCII digits does not fall
through to "text" as the claim requires. -/
theorem C1_ascii_digit_counterexample :
    detect_type "１２３４５６" = "permit_number" ∧
    detect_type "１２３４５６" ≠ "text" ∧
    (∀ c ∈ ("１２３４５６" : String).data, ¬('0' ≤ c ∧ c ≤ '9')) := by decide

/-- C1 (amended): `detect_type` is total and follows the exact decision order:
trim whitespace (per Python `str.strip()`); if the trimmed string matches
`^https?://` case-insensitively the result is "listing_url"; otherwise, the
result is "permit_number" exactly when the trimmed string is 6 to 20 Unicode
decimal digits (what Python `\d` matches) and nothing else; otherwise "text".
In particular an all-digit string of length 5 or 21 classifies as "text". -/
theorem C1_detect_type_decision (text : String) :
    (detect_type text = "listing_url" ∨ detect_type text = "permit_number" ∨
      detect_type text = "text") ∧
    (urlMatch (pyStrip text) = true → detect_type text = "listing_url") ∧
    (urlMatch (pyStrip text) = false →
      (detect_type text = "permit_number" ↔
        (6 ≤ (pyStrip text).data.length ∧ (pyStrip text).data.length ≤ 20 ∧
          ∀ c ∈ (pyStrip text).data, pyIsDigit c = true))) ∧
    (urlMatch (pyStrip text) = false → permitMatch (pyStrip text) = false →
      detect_type text = "text") ∧
    ((∀ c ∈ text.data, pyIsDigit c = true) →
      (text.data.length = 5 ∨ text.data.length = 21) →
      detect_type text = "text") := by
  refine ⟨?_, ?_, ?_, ?_, ?_⟩
  · cases hu : urlMatch (pyStrip text) <;> cases hp : permitMatch (pyStrip text) <;>
      simp [detect_type_eq, hu, hp]
  · intro h
    rw [detect_type_eq, if_pos h]
  · intro h
    rw [detect_type_eq, if_neg (by simp [h]), ← permitMatch_iff]
    cases hp : permitMatch (pyStrip text)
    · rw [if_neg (by simp)]
      exact iff_of_false (by decide) (by decide)
    · rw [if_pos rfl]
      exact iff_of_true rfl rfl
  · intro h1 h2
    simp [detect_type_eq, h1, h2]
  · intro hdig hlen
    have hne : text.data ≠ [] := by
      intro he
      rw [he] at hlen
      simp at hlen
    have hps : pyStrip text = text := pyStrip_of_digits text hdig
    have hurl : urlMatch text = false := urlMatch_eq_false_of_digits text hne hdig
    have hperm : permitMatch text = false := by
      simp only [permitMatch, Bool.and_eq_false_iff]
      rcases hlen with h5 | h21
      · exact Or.inl (Or.inr (by simp [h5]))
      · exact Or.inr (by simp [h21])
    simp [detect_type, hps, hurl, hperm]

/-- C1 witness: concrete instances of each branch, including a 5-fullwidth-digit
string classified "text" by the amended digit-string rule. -/
theorem C1_detect_type_decision_witness :
    detect_type " HTTPS://example.com " = "listing_url" ∧
    detect_type "00123456" = "permit_number" ∧
    detect_type "１２３４５" = "text" :=
  ⟨(C1_detect_type_decision " HTTPS://example.com ").2.1 (by decide),
   ((C1_detect_type_decision "00123456").2.2.1 (by decide)).mpr (by decide),
   (C1_detect_type_decision "１２３４５").2.2.2.2 (by decide) (by decide)⟩

/-! ## C3 -/

/-- C3: `is_allowed` is true for every user when the configured allow-set is
empty; when the allow-set is non-empty it is true exactly for its members. -/
theorem C3_is_allowed (allowed : List Int) (u : Int) :
    (allowed = [] → is_allowed allowed u = true) ∧
    (allowed ≠ [] → (is_allowed allowed u = true ↔ u ∈ allowed)) := by
  constructor
  · rintro rfl
    rfl
  · intro h
    simp [is_allowed, h]

/-- C3 witness: open mode admits user 5; the set [3, 4] admits its member 4. -/
theorem C3_is_allowed_witness :
    is_allowed [] 5 = true ∧ is_allowed [3, 4] 4 = true :=
  ⟨(C3_is_allowed [] 5).1 rfl,
   ((C3_is_allowed [3, 4] 4).2 (by decide)).mpr (by decide)⟩

/-! ## C6 -/

/-- C6: `format_card` produces the fixed multi-line template — a header line
with the check id, labeled Unit/Building/Project/Community/Permit/Type lines in
that order with "—" / "unknown" substituted for missing fields, then a "Flags:"
section with one bullet line per flag, or "—" when the flags are empty; the §8
example with id 7 yields the exact template with a "Check #7" header and one
bullet flag line. -/
theorem C6_format_card_template (check_id : Nat) (r : LookupResult) :
    format_card check_id r =
      "✅ Check #" ++ toString check_id ++ "\n\n" ++
      "Unit: " ++ r.unit_number.getD "—" ++ "\n" ++
      "Building: " ++ r.building.getD "—" ++ "\n" ++
      "Project: " ++ r.project.getD "—" ++ "\n" ++
      "Community: " ++ r.community.getD "—" ++ "\n" ++
      "Permit: " ++ r.permit_status.getD "unknown" ++ "\n" ++
      "Type: " ++ r.input_type.getD "—" ++ "\n\n" ++
      "Flags:\n" ++
      (match r.flags.getD [] with
       | [] => "—"
       | f :: fs => String.intercalate "\n" ((f :: fs).map (fun g => "• " ++ g))) ∧
    format_card 7 ⟨some "5", some "—", some "—", some "—", some "unknown",
        some "text", some ["No data source connected yet (MVP)."]⟩ =
      "✅ Check #7\n\nUnit: 5\nBuilding: —\nProject: —\nCommunity: —\nPermit: unknown\nType: text\n\nFlags:\n• No data source connected yet (MVP)." ∧
    format_card 3 ⟨none, none, none, none, none, none, none⟩ =
      "✅ Check #3\n\nUnit: —\nBuilding: —\nProject: —\nCommunity: —\nPermit: unknown\nType: —\n\nFlags:\n—" := by
  refine ⟨?_, by decide, by decide⟩
  cases hf : r.flags.getD [] with
  | nil => simp [format_card, hf]
  | cons f fs => simp [format_card, hf]

/-! ## C7 -/

/-- C7: a disallowed user gets exactly the fixed refusal string and no state
change, from plain text as well as from /start, /help and /last. -/
theorem C7_disallowed_refusal (allowed : List Int) (now : String) (s : Store)
    (uid : Int) (txt m1 m2 m3 : String) (h : is_allowed allowed uid = false) :
    on_text allowed now ⟨some ⟨uid⟩, some txt⟩ s = (s, ["⛔️ Private bot."]) ∧
    cmd_start allowed ⟨some ⟨uid⟩, some m1⟩ s = (s, ["⛔️ Private bot."]) ∧
    cmd_help allowed ⟨some ⟨uid⟩, some m2⟩ s = (s, ["⛔️ Private bot."]) ∧
    cmd_last allowed ⟨some ⟨uid⟩, some m3⟩ s = (s, ["⛔️ Private bot."]) := by
  refine ⟨?_, ?_, ?_, ?_⟩ <;> simp [on_text, cmd_start, cmd_help, cmd_last, h, REFUSAL]

/-- C7 witness: user 42 against the allow-set [7]. -/
theorem C7_disallowed_refusal_witness :
    on_text [7] "T" ⟨some ⟨42⟩, some "hi"⟩ ⟨[]⟩ = (⟨[]⟩, ["⛔️ Private bot."]) ∧
    cmd_start [7] ⟨some ⟨42⟩, some "/start"⟩ ⟨[]⟩ = (⟨[]⟩, ["⛔️ Private bot."]) ∧
    cmd_help [7] ⟨some ⟨42⟩, some "/help"⟩ ⟨[]⟩ = (⟨[]⟩, ["⛔️ Private bot."]) ∧
    cmd_last [7] ⟨some ⟨42⟩, some "/last"⟩ ⟨[]⟩ = (⟨[]⟩, ["⛔️ Private bot."]) :=
  C7_disallowed_refusal [7] "T" ⟨[]⟩ 42 "hi" "/start" "/help" "/last" (by decide)

/-! ## C9 -/

/-- C9: an inbound event lacking an identifiable user or lacking message
content is silently dropped by every handler: no reply, no state change. -/
theorem C9_malformed_dropped (allowed : List Int) (now : String) (s : Store)
    (eu : Option User) (m : Option String) (h : eu = none ∨ m = none) :
    on_text allowed now ⟨eu, m⟩ s = (s, []) ∧
    cmd_start allowed ⟨eu, m⟩ s = (s, []) ∧
    cmd_help allowed ⟨eu, m⟩ s = (s, []) ∧
    cmd_last allowed ⟨eu, m⟩ s = (s, []) := by
  rcases h with rfl | rfl
  · cases m <;> simp [on_text, cmd_start, cmd_help, cmd_last]
  · cases eu <;> simp [on_text, cmd_start, cmd_help, cmd_last]

/-- C9 witness: a message with text but no identifiable user is dropped. -/
theorem C9_malformed_dropped_witness :
    on_text [] "T" ⟨none, some "hello"⟩ ⟨[]⟩ = (⟨[]⟩, []) ∧
    cmd_start [] ⟨none, some "/start"⟩ ⟨[]⟩ = (⟨[]⟩, []) :=
  ⟨(C9_malformed_dropped [] "T" ⟨[]⟩ none (some "hello") (Or.inl rfl)).1,
   (C9_malformed_dropped [] "T" ⟨[]⟩ none (some "/start") (Or.inl rfl)).2.1⟩

/-! ## C10 -/

/-- C10 counterexample: an allowed user sends " hi " (with surrounding
whitespace); the persisted payload is the trimmed "hi", not the raw text
" hi " exactly as received. -/
theorem C10_raw_payload_counterexample :
    (on_text [] "2026-01-01T00:00:00" ⟨some ⟨1⟩, some " hi "⟩ ⟨[]⟩).1.rows.map
        (fun r => r.payload) = ["hi"] ∧
    (on_text [] "2026-01-01T00:00:00" ⟨some ⟨1⟩, some " hi "⟩ ⟨[]⟩).1.rows.map
        (fun r => r.payload) ≠ [" hi "] := by decide

/-- C10 (amended): the persisted payload is the whitespace-trimmed input text,
and `created_at` is the dispatcher's clock value (suffixed "Z"), never taken
from the client message. -/
theorem C10_payload_trimmed_clock (allowed : List Int) (now : String) (s : Store)
    (uid : Int) (txt : String) (h : is_allowed allowed uid = true) :
    (on_text allowed now ⟨some ⟨uid⟩, some txt⟩ s).1.rows =
      s.rows ++ [⟨s.nextId, uid, pyStrip txt, now ++ "Z"⟩] := by
  simp [on_text, h, Store.append]

/-- C10 witness: concrete runs of the amended statement, with ASCII-space and
no-break-space padding (both stripped by Python's `str.strip()`). -/
theorem C10_payload_trimmed_clock_witness :
    (on_text [] "2026-01-01T00:00:00" ⟨some ⟨1⟩, some " hi "⟩ ⟨[]⟩).1.rows =
      [⟨1, 1, "hi", "2026-01-01T00:00:00Z"⟩] ∧
    (on_text [] "2026-01-01T00:00:00" ⟨some ⟨1⟩, some "\u00a0hi\u00a0"⟩ ⟨[]⟩).1.rows =
      [⟨1, 1, "hi", "2026-01-01T00:00:00Z"⟩] :=
  ⟨(C10_payload_trimmed_clock [] "2026-01-01T00:00:00" ⟨[]⟩ 1 " hi "
     (by decide)).trans (by decide),
   (C10_payload_trimmed_clock [] "2026-01-01T00:00:00" ⟨[]⟩ 1 "\u00a0hi\u00a0"
     (by decide)).trans (by decide)⟩

/-! ## C5 -/

/-- C5: end-to-end plain-text pipeline — allowed user 42 sends
"https://example.com/listing/99" to an empty store: classified as listing_url,
no unit found, the store assigns id 1, and the single reply contains
"Check #1", "Type: listing_url" and "Unit: —" and echoes the raw user id. -/
theorem C5_end_to_end :
    (let r := on_text [42] "2026-01-01T00:00:00"
        ⟨some ⟨42⟩, some "https://example.com/listing/99"⟩ ⟨[]⟩
     detect_type "https://example.com/listing/99" = "listing_url" ∧
     (fake_lookup "https://example.com/listing/99" "listing_url").unit_number =
       some "—" ∧
     r.1.rows.map (fun rec => rec.id) = [1] ∧
     r.2 = ["(debug) your_user_id=42\n\n✅ Check #1\n\nUnit: —\nBuilding: —\nProject: —\nCommunity: —\nPermit: unknown\nType: listing_url\n\nFlags:\n• No data source connected yet (MVP)."] ∧
     strContains (r.2.headD "") "Check #1" = true ∧
     strContains (r.2.headD "") "Type: listing_url" = true ∧
     strContains (r.2.headD "") "Unit: —" = true ∧
     strContains (r.2.headD "") "your_user_id=42" = true) := by
  set_option maxRecDepth 8000 in decide

/-! ## C8 -/

/-- C8: /last for an allowed user fetches the user's 5 most recent records;
with none the reply is exactly "Nog geen checks.", else a header line plus one
line per record of the form "#id — first-60-chars-of-payload (created_at)". -/
theorem C8_last_command (allowed : List Int) (s : Store) (uid : Int) (m : String)
    (h : is_allowed allowed uid = true) :
    (s.recent uid 5 = [] →
      cmd_last allowed ⟨some ⟨uid⟩, some m⟩ s = (s, ["Nog geen checks."])) ∧
    (s.recent uid 5 ≠ [] →
      cmd_last allowed ⟨some ⟨uid⟩, some m⟩ s =
        (s, [String.intercalate "\n" ("🕘 Laatste checks:" ::
          (s.recent uid 5).map (fun r =>
            "#" ++ toString r.id ++ " — " ++ ⟨r.payload.data.take 60⟩ ++
              " (" ++ r.created_at ++ ")"))])) := by
  constructor <;> intro h2 <;> simp [cmd_last, h, h2]

/-- C8 witness: one stored check for user 9 is listed newest-first. -/
theorem C8_last_command_witness :
    cmd_last [] ⟨some ⟨9⟩, some "x"⟩ ⟨[⟨1, 9, "hello", "T1"⟩]⟩ =
      (⟨[⟨1, 9, "hello", "T1"⟩]⟩, ["🕘 Laatste checks:\n#1 — hello (T1)"]) :=
  ((C8_last_command [] ⟨[⟨1, 9, "hello", "T1"⟩]⟩ 9 "x" (by decide)).2
    (by decide)).trans (by decide)

/-! ## C4 -/

lemma le_foldr_max (l : List Nat) (a : Nat) (h : a ∈ l) : a ≤ l.foldr max 0 := by
  induction l with
  | nil => cases h
  | cons b bs ih =>
    rcases List.mem_cons.mp h with rfl | h2
    · exact Nat.le_max_left _ _
    · exact Nat.le_trans (ih h2) (Nat.le_max_right _ _)

lemma id_lt_nextId (s : Store) (r : CheckRecord) (h : r ∈ s.rows) :
    r.id < s.nextId :=
  Nat.lt_succ_of_le (le_foldr_max _ _ (List.mem_map_of_mem (fun x => x.id) h))

/-- `ORDER BY id DESC` as a preorder relation on rows. -/
abbrev byIdDesc : CheckRecord → CheckRecord → Prop := fun a b => b.id ≤ a.id

instance : IsTotal CheckRecord byIdDesc := ⟨fun a b => Nat.le_total b.id a.id⟩

instance : IsTrans CheckRecord byIdDesc :=
  ⟨fun _ _ _ hab hbc => Nat.le_trans hbc hab⟩

lemma insertionSort_take_one_max (l : List CheckRecord) (x : CheckRecord)
    (hx : ∀ r ∈ l, r.id < x.id) :
    ((l ++ [x]).insertionSort byIdDesc).take 1 = [x] := by
  have hsort : ((l ++ [x]).insertionSort byIdDesc).Pairwise byIdDesc :=
    List.sorted_insertionSort byIdDesc (l ++ [x])
  have hmem : x ∈ (l ++ [x]).insertionSort byIdDesc :=
    (List.mem_insertionSort byIdDesc).mpr (List.mem_append.mpr (Or.inr (List.mem_singleton.mpr rfl)))
  cases hL : (l ++ [x]).insertionSort byIdDesc with
  | nil => rw [hL] at hmem; cases hmem
  | cons h t =>
    have hh : h ∈ l ++ [x] := (List.mem_insertionSort byIdDesc).mp (hL ▸ List.mem_cons_self h t)
    have hhx : h = x := by
      rcases List.mem_append.mp hh with hl | hx'
      · rw [hL] at hmem hsort
        rcases List.mem_cons.mp hmem with rfl | hxt
        · rfl
        · have : x.id ≤ h.id := (List.pairwise_cons.mp hsort).1 x hxt
          exact absurd (Nat.lt_of_lt_of_le (hx h hl) this) (Nat.lt_irrefl _)
      · exact List.mem_singleton.mp hx'
    simp [hhx]

/-- C4: store invariant and retrieval contract — appended ids are fresh and
strictly increasing across sequential appends; after an append,
`recent user 1` returns exactly the just-inserted record; `recent` returns at
most `limit` records, all belonging to the user, ordered by id descending,
and the empty sequence for a user with no records. -/
theorem C4_store_contract (s : Store) (u u' user : Int)
    (p p' ca ca' : String) (limit : Nat) :
    (s.append u p ca).2 < ((s.append u p ca).1.append u' p' ca').2 ∧
    (s.append u p ca).2 ∉ s.rows.map (fun r => r.id) ∧
    (s.append u p ca).1.recent u 1 = [⟨(s.append u p ca).2, u, p, ca⟩] ∧
    (s.recent user limit).length ≤ limit ∧
    (∀ r ∈ s.recent user limit, r.user_id = user) ∧
    (s.recent user limit).Pairwise (fun a b => b.id ≤ a.id) ∧
    ((∀ r ∈ s.rows, r.user_id ≠ user) → s.recent user limit = []) := by
  refine ⟨?_, ?_, ?_, ?_, ?_, ?_, ?_⟩
  · exact id_lt_nextId (s.append u p ca).1 ⟨s.nextId, u, p, ca⟩
      (List.mem_append.mpr (Or.inr (List.mem_singleton.mpr rfl)))
  · intro hmem
    rcases List.mem_map.mp hmem with ⟨r, hr, hid⟩
    exact absurd (hid ▸ id_lt_nextId s r hr) (Nat.lt_irrefl _)
  · show Store.recent (Store.mk (s.rows ++ [CheckRecord.mk s.nextId u p ca])) u 1 =
      [CheckRecord.mk s.nextId u p ca]
    rw [Store.recent]
    have hfil : (s.rows ++ [CheckRecord.mk s.nextId u p ca]).filter
          (fun r => r.user_id = u) =
        s.rows.filter (fun r => r.user_id = u) ++ [CheckRecord.mk s.nextId u p ca] := by
      rw [List.filter_append]
      simp
    rw [hfil]
    exact insertionSort_take_one_max _ _
      (fun r hr => id_lt_nextId s r (List.mem_filter.mp hr).1)
  · rw [Store.recent]
    simp [List.length_take]
  · intro r hr
    rw [Store.recent] at hr
    have h2 := (List.mem_insertionSort byIdDesc).mp (List.mem_of_mem_take hr)
    exact of_decide_eq_true (List.mem_filter.mp h2).2
  · exact (List.sorted_insertionSort byIdDesc _).take
  · intro hnone
    rw [Store.recent]
    have : s.rows.filter (fun r => r.user_id = user) = [] := by
      rw [List.filter_eq_nil_iff]
      intro r hr
      simp [hnone r hr]
    rw [this]
    simp

/-- C4 witness: concrete append/recent runs on small stores. -/
theorem C4_store_contract_witness :
    ((⟨[]⟩ : Store).append 9 "a" "T").1.recent 9 1 = [⟨1, 9, "a", "T"⟩] ∧
    (⟨[⟨1, 8, "b", "T"⟩]⟩ : Store).recent 7 5 = [] :=
  ⟨(C4_store_contract ⟨[]⟩ 9 9 9 "a" "a" "T" "T" 1).2.2.1,
   (C4_store_contract ⟨[⟨1, 8, "b", "T"⟩]⟩ 9 9 7 "a" "a" "T" "T" 5).2.2.2.2.2.2
     (by decide)⟩

/-! ## C2

The claim states a reference definition of the enrichment in the spec's own
words: the first occurrence anywhere in the text of "one of the words unit,
apt, apartment or flat (case-insensitively), optionally followed by one
separator from {-, _, /, space}, followed immediately by one or more digits",
with the captured digit run.  "Digits" and "case-insensitively" mean what
they mean in the program: Python's `\d` (any Unicode decimal digit,
`pyIsDigit`) and `re.IGNORECASE` literal matching (`reLitMatch`).  `HeadMatch cs d` says the pattern occurs at the
start of the suffix `cs` capturing `d`; `SpecMatchAt cs i d` places it at
position `i`. -/

/-- The claim's reference pattern, matched at the start of `cs`, capturing the
(maximal) digit run `d`. -/
def HeadMatch (cs d : List Char) : Prop :=
  ∃ kw ∈ kwList, ∃ pre sep tail : List Char,
    cs = pre ++ sep ++ d ++ tail ∧
    litsMatch kw.data pre = true ∧
    (sep = [] ∨ ∃ c, isSep c = true ∧ sep = [c]) ∧
    d ≠ [] ∧ (∀ c ∈ d, pyIsDigit c = true) ∧
    (∀ c, tail.head? = some c → pyIsDigit c = false)

/-- The claim's reference pattern, matched at position `i` of `cs`. -/
def SpecMatchAt (cs : List Char) (i : Nat) (d : List Char) : Prop :=
  HeadMatch (cs.drop i) d

lemma isSep_not_digit (c : Char) (h : isSep c = true) : pyIsDigit c = false := by
  simp only [isSep, Bool.or_eq_true, decide_eq_true_iff] at h
  rcases h with ((rfl | rfl) | rfl) | rfl <;> decide

lemma head_mem_of_append (d tail : List Char) (x : Char) (xs : List Char)
    (hd : d ≠ []) (heq : x :: xs = d ++ tail) : x ∈ d := by
  cases d with
  | nil => exact absurd rfl hd
  | cons a d' =>
    rw [List.cons_append] at heq
    injection heq with h1 h2
    rw [h1]
    exact List.mem_cons_self a d'

lemma takeWhile_unique (p : Char → Bool) (d tail : List Char)
    (hd : ∀ c ∈ d, p c = true) (ht : ∀ c, tail.head? = some c → p c = false) :
    (d ++ tail).takeWhile p = d := by
  induction d with
  | nil =>
    cases tail with
    | nil => rfl
    | cons t ts =>
      rw [List.nil_append, List.takeWhile_cons, ht t rfl]
      simp
  | cons a d' ih =>
    rw [List.cons_append, List.takeWhile_cons,
      if_pos (hd a (List.mem_cons_self a d'))]
    rw [ih (fun c hc => hd c (List.mem_cons_of_mem a hc))]

lemma head?_dropWhile_false (p : Char → Bool) (l : List Char) (c : Char)
    (hc : (l.dropWhile p).head? = some c) : p c = false := by
  have h := List.head?_dropWhile_not p l
  rw [hc] at h
  exact h

lemma matchKw_some_iff (kw : List Char) (cs rest : List Char) :
    matchKw kw cs = some rest ↔
      ∃ pre, cs = pre ++ rest ∧ litsMatch kw pre = true := by
  induction kw generalizing cs with
  | nil =>
    simp only [matchKw, Option.some.injEq]
    constructor
    · rintro rfl
      exact ⟨[], rfl, rfl⟩
    · rintro ⟨pre, hcs, hpre⟩
      cases pre with
      | nil =>
        rw [hcs]
        rfl
      | cons p0 pre' => exact Bool.noConfusion hpre
  | cons k ks ih =>
    cases cs with
    | nil =>
      simp only [matchKw]
      constructor
      · rintro ⟨⟩
      · rintro ⟨pre, hcs, hpre⟩
        cases pre with
        | nil => exact Bool.noConfusion hpre
        | cons p0 pre' => cases hcs
    | cons c cs' =>
      simp only [matchKw]
      by_cases hc : reLitMatch k c = true
      · rw [if_pos hc, ih]
        constructor
        · rintro ⟨pre', hcs', hpre'⟩
          refine ⟨c :: pre', by rw [List.cons_append, hcs'], ?_⟩
          rw [show litsMatch (k :: ks) (c :: pre') =
            (reLitMatch k c && litsMatch ks pre') from rfl, hc, hpre']
          rfl
        · rintro ⟨pre, hcs, hpre⟩
          cases pre with
          | nil => exact Bool.noConfusion hpre
          | cons p0 pre' =>
            rw [List.cons_append] at hcs
            injection hcs with h1 h2
            rw [show litsMatch (k :: ks) (p0 :: pre') =
              (reLitMatch k p0 && litsMatch ks pre') from rfl,
              Bool.and_eq_true] at hpre
            exact ⟨pre', h2, hpre.2⟩
      · rw [if_neg hc]
        constructor
        · rintro ⟨⟩
        · rintro ⟨pre, hcs, hpre⟩
          cases pre with
          | nil => exact Bool.noConfusion hpre
          | cons p0 pre' =>
            rw [List.cons_append] at hcs
            injection hcs with h1 h2
            rw [show litsMatch (k :: ks) (p0 :: pre') =
              (reLitMatch k p0 && litsMatch ks pre') from rfl,
              Bool.and_eq_true] at hpre
            have h4 := hpre.1
            rw [← h1] at h4
            exact absurd h4 hc

/-- The decomposition a successful `captureDigits` certifies: an optional
separator, a nonempty maximal digit run, and the rest. -/
def CaptureSpec (rest d : List Char) : Prop :=
  ∃ sep tail, rest = sep ++ d ++ tail ∧
    (sep = [] ∨ ∃ c, isSep c = true ∧ sep = [c]) ∧
    d ≠ [] ∧ (∀ c ∈ d, pyIsDigit c = true) ∧
    (∀ c, tail.head? = some c → pyIsDigit c = false)

lemma captureSpec_of_takeWhile (hd1 : ∃ x xs, l = x :: xs ∧ pyIsDigit x = true) :
    CaptureSpec l (l.takeWhile pyIsDigit) := by
  rcases hd1 with ⟨x, xs, rfl, hx⟩
  refine ⟨[], (x :: xs).dropWhile pyIsDigit, ?_, Or.inl rfl, ?_, ?_, ?_⟩
  · rw [List.nil_append, List.takeWhile_append_dropWhile]
  · rw [List.takeWhile_cons, if_pos hx]
    exact List.cons_ne_nil x _
  · exact fun c hc => List.mem_takeWhile_imp hc
  · exact fun c hc => head?_dropWhile_false pyIsDigit (x :: xs) c hc

lemma not_captureSpec_sep_nil (c : Char) (d : List Char) (hsep : isSep c = true)
    (h : CaptureSpec (c :: []) d) : False := by
  rcases h with ⟨sep, tail, heq, hs, hne, hdig, htail⟩
  rcases hs with rfl | ⟨c', hc', rfl⟩
  · rw [List.nil_append] at heq
    have hcd : c ∈ d := head_mem_of_append d tail c [] hne heq
    have h1 := hdig c hcd
    rw [isSep_not_digit c hsep] at h1
    exact Bool.noConfusion h1
  · rw [List.singleton_append] at heq
    injection heq with h1 h2
    exact hne (List.append_eq_nil.mp h2.symm).1

lemma captureDigits_some_iff (rest d : List Char) :
    captureDigits rest = some d ↔ CaptureSpec rest d := by
  cases rest with
  | nil =>
    simp only [captureDigits]
    constructor
    · rintro ⟨⟩
    · rintro ⟨sep, tail, heq, hsep, hne, hdig, htail⟩
      exact absurd (List.append_eq_nil.mp (List.append_eq_nil.mp heq.symm).1).2 hne
  | cons c cs =>
    rw [captureDigits]
    by_cases hsep : isSep c = true
    · rw [if_pos hsep]
      cases cs with
      | nil =>
        rw [if_neg (by rw [show headDigit [] = false from rfl]; exact Bool.false_ne_true)]
        exact iff_of_false (fun h => Option.noConfusion h)
          (not_captureSpec_sep_nil c d hsep)
      | cons d1 cs' =>
        rw [show headDigit (d1 :: cs') = pyIsDigit d1 from rfl]
        by_cases hd1 : pyIsDigit d1 = true
        · rw [if_pos hd1]
          simp only [Option.some.injEq]
          constructor
          · rintro rfl
            refine ⟨[c], (d1 :: cs').dropWhile pyIsDigit, ?_,
              Or.inr ⟨c, hsep, rfl⟩, ?_, ?_, ?_⟩
            · rw [List.append_assoc, List.takeWhile_append_dropWhile,
                List.singleton_append]
            · rw [List.takeWhile_cons, if_pos hd1]
              exact List.cons_ne_nil d1 _
            · exact fun x hx => List.mem_takeWhile_imp hx
            · exact fun x hx => head?_dropWhile_false pyIsDigit (d1 :: cs') x hx
          · rintro ⟨sep, tail, heq, hs, hne, hdig, htail⟩
            rcases hs with rfl | ⟨c', hc', rfl⟩
            · rw [List.nil_append] at heq
              have hcd : c ∈ d := head_mem_of_append d tail c (d1 :: cs') hne heq
              have h1 := hdig c hcd
              rw [isSep_not_digit c hsep] at h1
              exact Bool.noConfusion h1
            · rw [List.singleton_append] at heq
              injection heq with h1 h2
              rw [h2]
              exact takeWhile_unique pyIsDigit d tail hdig htail
        · rw [if_neg hd1]
          refine iff_of_false (fun h => Option.noConfusion h) ?_
          rintro ⟨sep, tail, heq, hs, hne, hdig, htail⟩
          rcases hs with rfl | ⟨c', hc', rfl⟩
          · rw [List.nil_append] at heq
            have hcd : c ∈ d := head_mem_of_append d tail c (d1 :: cs') hne heq
            have h1 := hdig c hcd
            rw [isSep_not_digit c hsep] at h1
            exact Bool.noConfusion h1
          · rw [List.singleton_append] at heq
            injection heq with h1 h2
            have hcd : d1 ∈ d := head_mem_of_append d tail d1 cs' hne h2
            exact hd1 (hdig d1 hcd)
    · rw [if_neg hsep]
      by_cases hc : pyIsDigit c = true
      · rw [if_pos hc]
        simp only [Option.some.injEq]
        constructor
        · rintro rfl
          exact captureSpec_of_takeWhile ⟨c, cs, rfl, hc⟩
        · rintro ⟨sep, tail, heq, hs, hne, hdig, htail⟩
          rcases hs with rfl | ⟨c', hc', rfl⟩
          · rw [List.nil_append] at heq
            rw [heq]
            exact takeWhile_unique pyIsDigit d tail hdig htail
          · rw [List.singleton_append] at heq
            injection heq with h1 h2
            exact absurd (h1 ▸ hc') hsep
      · rw [if_neg hc]
        refine iff_of_false (fun h => Option.noConfusion h) ?_
        rintro ⟨sep, tail, heq, hs, hne, hdig, htail⟩
        rcases hs with rfl | ⟨c', hc', rfl⟩
        · rw [List.nil_append] at heq
          have hcd : c ∈ d := head_mem_of_append d tail c cs hne heq
          exact hc (hdig c hcd)
        · rw [List.singleton_append] at heq
          injection heq with h1 h2
          exact absurd (h1 ▸ hc') hsep

lemma matchKw_cons_some (k : Char) (ks cs r : List Char)
    (h : matchKw (k :: ks) cs = some r) :
    ∃ c cs', cs = c :: cs' ∧ reLitMatch k c = true ∧ matchKw ks cs' = some r := by
  cases cs with
  | nil => exact Option.noConfusion h
  | cons c cs' =>
    rw [matchKw] at h
    by_cases hc : reLitMatch k c = true
    · rw [if_pos hc] at h
      exact ⟨c, cs', rfl, hc, h⟩
    · rw [if_neg hc] at h
      exact Option.noConfusion h

lemma reLit_conflict_ua (c : Char) (h1 : reLitMatch 'u' c = true)
    (h2 : reLitMatch 'a' c = true) : False := by
  rw [show reLitMatch 'u' c = (c = 'u' || c = 'U') from rfl] at h1
  simp only [Bool.or_eq_true, decide_eq_true_iff] at h1
  rcases h1 with rfl | rfl <;> exact absurd h2 (by decide)

lemma reLit_conflict_uf (c : Char) (h1 : reLitMatch 'u' c = true)
    (h2 : reLitMatch 'f' c = true) : False := by
  rw [show reLitMatch 'u' c = (c = 'u' || c = 'U') from rfl] at h1
  simp only [Bool.or_eq_true, decide_eq_true_iff] at h1
  rcases h1 with rfl | rfl <;> exact absurd h2 (by decide)

lemma reLit_conflict_af (c : Char) (h1 : reLitMatch 'a' c = true)
    (h2 : reLitMatch 'f' c = true) : False := by
  rw [show reLitMatch 'a' c = (c = 'a' || c = 'A') from rfl] at h1
  simp only [Bool.or_eq_true, decide_eq_true_iff] at h1
  rcases h1 with rfl | rfl <;> exact absurd h2 (by decide)

lemma reLit_conflict_ta (c : Char) (h1 : reLitMatch 't' c = true)
    (h2 : reLitMatch 'a' c = true) : False := by
  rw [show reLitMatch 't' c = (c = 't' || c = 'T') from rfl] at h1
  simp only [Bool.or_eq_true, decide_eq_true_iff] at h1
  rcases h1 with rfl | rfl <;> exact absurd h2 (by decide)

lemma matchKw_conflict_head (k1 k2 : Char) (ks1 ks2 cs r1 r2 : List Char)
    (hconf : ∀ c, reLitMatch k1 c = true → reLitMatch k2 c = true → False)
    (m1 : matchKw (k1 :: ks1) cs = some r1)
    (m2 : matchKw (k2 :: ks2) cs = some r2) : False := by
  obtain ⟨c, cs', rfl, hc1, -⟩ := matchKw_cons_some k1 ks1 cs r1 m1
  obtain ⟨c', cs'', he, hc2, -⟩ := matchKw_cons_some k2 ks2 _ r2 m2
  injection he with h1 h2
  refine hconf c hc1 ?_
  rw [h1]
  exact hc2

lemma matchKw_conflict_apt_apartment (cs r1 r2 : List Char)
    (m1 : matchKw ('a' :: 'p' :: 't' :: []) cs = some r1)
    (m2 : matchKw
      ('a' :: 'p' :: 'a' :: 'r' :: 't' :: 'm' :: 'e' :: 'n' :: 't' :: [])
      cs = some r2) : False := by
  obtain ⟨c0, cs0, rfl, -, m1'⟩ := matchKw_cons_some _ _ _ _ m1
  obtain ⟨c0', cs0', he0, -, m2'⟩ := matchKw_cons_some _ _ _ _ m2
  injection he0 with he01 he02
  rw [← he02] at m2'
  obtain ⟨c1, cs1, rfl, -, m1''⟩ := matchKw_cons_some _ _ _ _ m1'
  obtain ⟨c1', cs1', he1, -, m2''⟩ := matchKw_cons_some _ _ _ _ m2'
  injection he1 with he11 he12
  rw [← he12] at m2''
  obtain ⟨c2, cs2, rfl, hc1, -⟩ := matchKw_cons_some _ _ _ _ m1''
  obtain ⟨c2', cs2', he2, hc2, -⟩ := matchKw_cons_some _ _ _ _ m2''
  injection he2 with he21 he22
  refine reLit_conflict_ta c2 hc1 ?_
  rw [he21]
  exact hc2

lemma matchKw_unique (kw1 kw2 : String) (h1 : kw1 ∈ kwList) (h2 : kw2 ∈ kwList)
    (cs r1 r2 : List Char) (m1 : matchKw kw1.data cs = some r1)
    (m2 : matchKw kw2.data cs = some r2) : kw1 = kw2 := by
  have h1' : kw1 = "unit" ∨ kw1 = "apt" ∨ kw1 = "apartment" ∨ kw1 = "flat" := by
    simpa [kwList] using h1
  have h2' : kw2 = "unit" ∨ kw2 = "apt" ∨ kw2 = "apartment" ∨ kw2 = "flat" := by
    simpa [kwList] using h2
  rcases h1' with rfl | rfl | rfl | rfl <;> rcases h2' with rfl | rfl | rfl | rfl
  · rfl
  · exact (matchKw_conflict_head 'u' 'a' _ _ _ _ _
      (fun c a b => reLit_conflict_ua c a b) m1 m2).elim
  · exact (matchKw_conflict_head 'u' 'a' _ _ _ _ _
      (fun c a b => reLit_conflict_ua c a b) m1 m2).elim
  · exact (matchKw_conflict_head 'u' 'f' _ _ _ _ _
      (fun c a b => reLit_conflict_uf c a b) m1 m2).elim
  · exact (matchKw_conflict_head 'a' 'u' _ _ _ _ _
      (fun c a b => reLit_conflict_ua c b a) m1 m2).elim
  · rfl
  · exact (matchKw_conflict_apt_apartment _ _ _ m1 m2).elim
  · exact (matchKw_conflict_head 'a' 'f' _ _ _ _ _
      (fun c a b => reLit_conflict_af c a b) m1 m2).elim
  · exact (matchKw_conflict_head 'a' 'u' _ _ _ _ _
      (fun c a b => reLit_conflict_ua c b a) m1 m2).elim
  · exact (matchKw_conflict_apt_apartment _ _ _ m2 m1).elim
  · rfl
  · exact (matchKw_conflict_head 'a' 'f' _ _ _ _ _
      (fun c a b => reLit_conflict_af c a b) m1 m2).elim
  · exact (matchKw_conflict_head 'f' 'u' _ _ _ _ _
      (fun c a b => reLit_conflict_uf c b a) m1 m2).elim
  · exact (matchKw_conflict_head 'f' 'a' _ _ _ _ _
      (fun c a b => reLit_conflict_af c b a) m1 m2).elim
  · exact (matchKw_conflict_head 'f' 'a' _ _ _ _ _
      (fun c a b => reLit_conflict_af c b a) m1 m2).elim
  · rfl

lemma tryKws_some_iff (kws : List String) (hsub : ∀ kw ∈ kws, kw ∈ kwList)
    (cs d : List Char) :
    tryKws kws cs = some d ↔
      ∃ kw ∈ kws, ∃ rest, matchKw kw.data cs = some rest ∧
        captureDigits rest = some d := by
  induction kws with
  | nil => simp [tryKws]
  | cons kw0 kws' ih =>
    have hsub' : ∀ kw ∈ kws', kw ∈ kwList :=
      fun kw h => hsub kw (List.mem_cons_of_mem kw0 h)
    rw [tryKws]
    cases hm0 : matchKw kw0.data cs with
    | none =>
      rw [Option.none_bind, Option.none_orElse, ih hsub']
      constructor
      · rintro ⟨kw, hkw, hrest⟩
        exact ⟨kw, List.mem_cons_of_mem kw0 hkw, hrest⟩
      · rintro ⟨kw, hkw, rest, hm, hc⟩
        rcases List.mem_cons.mp hkw with rfl | hkw'
        · rw [hm0] at hm
          exact Option.noConfusion hm
        · exact ⟨kw, hkw', rest, hm, hc⟩
    | some r0 =>
      rw [Option.some_bind]
      cases hc0 : captureDigits r0 with
      | some d0 =>
        rw [Option.some_orElse]
        constructor
        · intro h
          exact ⟨kw0, List.mem_cons_self kw0 kws', r0, hm0,
            hc0.trans (congrArg some (Option.some.inj h))⟩
        · rintro ⟨kw, hkw, rest, hm, hc⟩
          have hkk : kw = kw0 := by
            rcases List.mem_cons.mp hkw with rfl | hkw'
            · rfl
            · exact (matchKw_unique kw0 kw (hsub kw0 (List.mem_cons_self kw0 kws'))
                (hsub kw hkw) cs r0 rest hm0 hm).symm
          subst hkk
          have hr : rest = r0 := Option.some.inj (hm.symm.trans hm0)
          subst hr
          rw [hc0] at hc
          exact hc.symm ▸ rfl
      | none =>
        rw [Option.none_orElse, ih hsub']
        have hP0 : ∀ rest, matchKw kw0.data cs = some rest →
            captureDigits rest = some d → False := by
          intro rest hm hc
          have hr : rest = r0 := Option.some.inj (hm.symm.trans hm0)
          rw [hr, hc0] at hc
          exact Option.noConfusion hc
        constructor
        · rintro ⟨kw, hkw, hrest⟩
          exact ⟨kw, List.mem_cons_of_mem kw0 hkw, hrest⟩
        · rintro ⟨kw, hkw, rest, hm, hc⟩
          rcases List.mem_cons.mp hkw with rfl | hkw'
          · exact (hP0 rest hm hc).elim
          · exact ⟨kw, hkw', rest, hm, hc⟩

lemma headMatch_iff_kw (cs d : List Char) :
    HeadMatch cs d ↔ ∃ kw ∈ kwList, ∃ rest, matchKw kw.data cs = some rest ∧
      captureDigits rest = some d := by
  constructor
  · rintro ⟨kw, hkw, pre, sep, tail, heq, hpre, hsep, hne, hdig, htail⟩
    refine ⟨kw, hkw, sep ++ d ++ tail, ?_, ?_⟩
    · refine (matchKw_some_iff _ _ _).mpr ⟨pre, ?_, hpre⟩
      rw [heq]
      simp [List.append_assoc]
    · exact (captureDigits_some_iff _ _).mpr ⟨sep, tail, rfl, hsep, hne, hdig, htail⟩
  · rintro ⟨kw, hkw, rest, hm, hc⟩
    rcases (matchKw_some_iff _ _ _).mp hm with ⟨pre, hcs, hpre⟩
    rcases (captureDigits_some_iff _ _).mp hc with
      ⟨sep, tail, hrest, hsep, hne, hdig, htail⟩
    refine ⟨kw, hkw, pre, sep, tail, ?_, hpre, hsep, hne, hdig, htail⟩
    rw [hcs, hrest]
    simp [List.append_assoc]

lemma tryKws_kwList_iff (cs d : List Char) :
    tryKws kwList cs = some d ↔ HeadMatch cs d :=
  (tryKws_some_iff kwList (fun _ h => h) cs d).trans (headMatch_iff_kw cs d).symm

lemma headMatch_nil (d : List Char) : ¬ HeadMatch [] d := by
  rintro ⟨kw, hkw, pre, sep, tail, heq, hpre, hsep, hne, hdig, htail⟩
  have h1 := List.append_eq_nil.mp heq.symm
  exact hne (List.append_eq_nil.mp h1.1).2

lemma headMatch_ne_nil (cs d : List Char) (h : HeadMatch cs d) : d ≠ [] := by
  rcases h with ⟨kw, _, pre, sep, tail, _, _, _, hne, _, _⟩
  exact hne

lemma searchUnit_some_iff (cs d : List Char) :
    searchUnit cs = some d ↔
      ∃ i, HeadMatch (cs.drop i) d ∧
        ∀ j, j < i → ∀ e, ¬ HeadMatch (cs.drop j) e := by
  induction cs with
  | nil =>
    refine iff_of_false (fun h => Option.noConfusion h) ?_
    rintro ⟨i, hm, hmin⟩
    rw [List.drop_nil] at hm
    exact headMatch_nil d hm
  | cons c cs ih =>
    rw [searchUnit]
    cases h0 : tryKws kwList (c :: cs) with
    | some d0 =>
      rw [Option.some_orElse]
      constructor
      · intro h
        refine ⟨0, ?_, fun j hj e => absurd hj (Nat.not_lt_zero j)⟩
        rw [List.drop_zero]
        rw [← Option.some.inj h]
        exact (tryKws_kwList_iff _ _).mp h0
      · rintro ⟨i, hm, hmin⟩
        cases i with
        | zero =>
          rw [List.drop_zero] at hm
          have h2 := (tryKws_kwList_iff _ _).mpr hm
          rw [h0] at h2
          exact h2
        | succ i' =>
          have hh := (tryKws_kwList_iff (c :: cs) d0).mp h0
          have hmin0 := hmin 0 (Nat.succ_pos i') d0
          rw [List.drop_zero] at hmin0
          exact absurd hh hmin0
    | none =>
      rw [Option.none_orElse]
      have hnom : ∀ e, ¬ HeadMatch (c :: cs) e := by
        intro e he
        have h2 := (tryKws_kwList_iff (c :: cs) e).mpr he
        rw [h0] at h2
        exact Option.noConfusion h2
      rw [ih]
      constructor
      · rintro ⟨i, hm, hmin⟩
        refine ⟨i + 1, ?_, ?_⟩
        · rw [List.drop_succ_cons]
          exact hm
        · intro j hj e
          cases j with
          | zero =>
            rw [List.drop_zero]
            exact hnom e
          | succ j' =>
            rw [List.drop_succ_cons]
            exact hmin j' (Nat.lt_of_succ_lt_succ hj) e
      · rintro ⟨i, hm, hmin⟩
        cases i with
        | zero =>
          rw [List.drop_zero] at hm
          exact absurd hm (hnom d)
        | succ i' =>
          rw [List.drop_succ_cons] at hm
          refine ⟨i', hm, fun j hj e hme => ?_⟩
          refine hmin (j + 1) (Nat.succ_lt_succ hj) e ?_
          rw [List.drop_succ_cons]
          exact hme

lemma searchUnit_none_iff (cs : List Char) :
    searchUnit cs = none ↔ ∀ i d, ¬ HeadMatch (cs.drop i) d := by
  induction cs with
  | nil =>
    refine iff_of_true rfl ?_
    intro i d
    rw [List.drop_nil]
    exact headMatch_nil d
  | cons c cs ih =>
    rw [searchUnit]
    cases h0 : tryKws kwList (c :: cs) with
    | some d0 =>
      rw [Option.some_orElse]
      refine iff_of_false (fun h => Option.noConfusion h) ?_
      intro hall
      have h1 := hall 0 d0
      rw [List.drop_zero] at h1
      exact h1 ((tryKws_kwList_iff _ _).mp h0)
    | none =>
      rw [Option.none_orElse, ih]
      have hnom : ∀ e, ¬ HeadMatch (c :: cs) e := by
        intro e he
        have h2 := (tryKws_kwList_iff (c :: cs) e).mpr he
        rw [h0] at h2
        exact Option.noConfusion h2
      constructor
      · intro hall i d
        cases i with
        | zero =>
          rw [List.drop_zero]
          exact hnom d
        | succ i' =>
          rw [List.drop_succ_cons]
          exact hall i' d
      · intro hall i d
        have h1 := hall (i + 1) d
        rwa [List.drop_succ_cons] at h1

lemma unit_number_of_some (text cat : String) (d : List Char)
    (hs : searchUnit text.data = some d) (hne : d ≠ []) :
    (fake_lookup text cat).unit_number = some (String.mk d) := by
  have hmk : String.mk d ≠ "" := fun h => hne (congrArg String.data h)
  simp [fake_lookup, hs, hmk]

lemma unit_number_of_none (text cat : String)
    (hs : searchUnit text.data = none) :
    (fake_lookup text cat).unit_number = some "—" := by
  simp [fake_lookup, hs]

/-- C2: `fake_lookup` never fails and matches the claim's reference
definition: when the reference pattern occurs anywhere in the text,
`unit_number` is the digit run captured at the leftmost occurrence; when it
occurs nowhere, `unit_number` is "—"; building/project/community are "—",
permit_status is "unknown", flags is exactly the single MVP notice, and
input_type echoes the category argument; in particular
enrich("apt-12").unit_number = "12" and enrich("no unit info").unit_number
is "—" (and, the digits and the case-insensitivity being Python's Unicode
semantics, enrich("apt٥").unit_number = "٥" and
enrich("unıt5").unit_number = "5"). -/
theorem C2_fake_lookup_reference :
    (∀ text cat, (fake_lookup text cat).building = some "—" ∧
      (fake_lookup text cat).project = some "—" ∧
      (fake_lookup text cat).community = some "—" ∧
      (fake_lookup text cat).permit_status = some "unknown" ∧
      (fake_lookup text cat).input_type = some cat ∧
      (fake_lookup text cat).flags = some ["No data source connected yet (MVP)."]) ∧
    (∀ text cat i d, SpecMatchAt text.data i d →
      ∃ j e, SpecMatchAt text.data j e ∧
        (∀ j' e', j' < j → ¬ SpecMatchAt text.data j' e') ∧
        (fake_lookup text cat).unit_number = some (String.mk e)) ∧
    (∀ text cat, (∀ i d, ¬ SpecMatchAt text.data i d) →
      (fake_lookup text cat).unit_number = some "—") ∧
    (fake_lookup "apt-12" "text").unit_number = some "12" ∧
    (fake_lookup "no unit info" "text").unit_number = some "—" ∧
    (fake_lookup "apt٥" "text").unit_number = some "٥" ∧
    (fake_lookup "unıt5" "text").unit_number = some "5" := by
  refine ⟨fun text cat => ⟨rfl, rfl, rfl, rfl, rfl, rfl⟩, ?_, ?_,
    by decide, by decide, by decide, by decide⟩
  · intro text cat i d hm
    cases hs : searchUnit text.data with
    | none => exact absurd hm ((searchUnit_none_iff _).mp hs i d)
    | some e =>
      rcases (searchUnit_some_iff _ _).mp hs with ⟨j, hmj, hminj⟩
      exact ⟨j, e, hmj, fun j' e' hj' => hminj j' hj' e',
        unit_number_of_some text cat e hs (headMatch_ne_nil _ e hmj)⟩
  · intro text cat hno
    exact unit_number_of_none text cat
      ((searchUnit_none_iff _).mpr (fun i d => hno i d))

/-- C2 witness: the pattern occurs in "apt-12" at position 0 capturing "12";
no occurrence exists in "xyz 99". -/
theorem C2_fake_lookup_reference_witness :
    (∃ j e, SpecMatchAt "apt-12".data j e ∧
      (∀ j' e', j' < j → ¬ SpecMatchAt "apt-12".data j' e') ∧
      (fake_lookup "apt-12" "text").unit_number = some (String.mk e)) ∧
    (fake_lookup "xyz 99" "text").unit_number = some "—" := by
  constructor
  · refine C2_fake_lookup_reference.2.1 "apt-12" "text" 0 ['1', '2'] ?_
    refine ⟨"apt", by decide, ['a', 'p', 't'], ['-'], [], by decide, by decide,
      Or.inr ⟨'-', by decide, rfl⟩, by decide, by decide, ?_⟩
    intro c hc
    simp at hc
  · refine C2_fake_lookup_reference.2.2.1 "xyz 99" "text" ?_
    exact (searchUnit_none_iff _).mp (by decide)

end UnitBot
